import Mathlib

/-!
Shallow embedding of the yggdrasil-decision-forests random-forest model
core: tree/forest data structures, example routing, prediction
aggregation, node traversal, feature usage, variable importances, the
structure renderer, the evaluation snippet formatter and `MinNumberObs`.

The repository material at hand is the random-forest test suite
(`random_forest_test.cc`) together with the specification; the model,
traversal and rendering routines themselves are modelled from the
specification and validated against the concrete expectations of the
test suite (toy two-tree model, golden strings, importance values).
Machine floats are embedded as exact rationals; every concrete value
exercised by the tests is exactly representable.
-/

deriving instance DecidableEq for Except

namespace YDF

/-- Task of a model: classification or regression. -/
inductive Task where
  | CLASSIFICATION
  | REGRESSION
deriving DecidableEq, Repr

/-- Modelled from the spec: the test attached to an internal node
(`attribute_index`, numerical-threshold kind with its threshold, the
missing-value direction, the training-time `split_score`, and the
training example counts printed by the structure renderer). -/
structure Condition where
  attributeIdx : Nat
  threshold : ℚ
  missingValueDirection : Bool
  splitScore : ℚ
  numTrainingExamples : Nat
  numPosTrainingExamples : Nat
deriving DecidableEq, Repr

/-- Modelled from the spec: the task-dependent payload of a leaf.
Classification leaves carry the predicted class code plus a per-class
count distribution and its sum; regression leaves carry a scalar. -/
inductive LeafValue where
  | classifier (topValue : Nat) (counts : List ℚ) (sum : ℚ)
  | regressor (topValue : ℚ)
deriving DecidableEq, Repr

/-- Modelled from the spec: a tree vertex, either a leaf with its payload
or an internal vertex with a condition and two owned children.  Both
shapes carry `num_pos_training_examples_without_weight`. -/
inductive Node where
  | leaf (value : LeafValue) (numPosTrainingExamplesWithoutWeight : Nat)
  | internal (cond : Condition) (numPosTrainingExamplesWithoutWeight : Nat)
      (posChild : Node) (negChild : Node)
deriving DecidableEq, Repr

/-- One column of the dataset schema: its name, and for categorical
columns the number of unique values (0 for numerical columns). -/
structure ColumnSpec where
  name : String
  numClasses : Nat
deriving DecidableEq, Repr

/-- Modelled from the spec: a forest model is an ordered sequence of
decision trees (each given by its root node) plus task metadata, the
label column index and the dataset schema. -/
structure ForestModel where
  trees : List Node
  task : Task
  labelColIdx : Nat
  dataSpec : List ColumnSpec
deriving DecidableEq, Repr

/-- Addition on ℚ computed on numerators and denominators (kernel
reducible; proven equal to `+` in `qadd_eq`). -/
def qadd (a b : ℚ) : ℚ :=
  Rat.divInt (a.num * (b.den : Int) + b.num * (a.den : Int))
    ((a.den : Int) * (b.den : Int))

/-- Multiplication on ℚ computed on numerators and denominators
(kernel reducible; proven equal to `*` in `qmul_eq`). -/
def qmul (a b : ℚ) : ℚ :=
  Rat.divInt (a.num * b.num) ((a.den : Int) * (b.den : Int))

/-- Division on ℚ computed on numerators and denominators (kernel
reducible; proven equal to `/` in `qdiv_eq`). -/
def qdiv (a b : ℚ) : ℚ :=
  Rat.divInt (a.num * (b.den : Int)) ((a.den : Int) * b.num)

/-- Sum of a list of rationals via `qadd` (proven equal to `List.sum`
in `qsum_eq`). -/
def qsum (l : List ℚ) : ℚ :=
  l.foldr qadd 0

/-- Modelled from the spec: the output of prediction, a task-dependent
variant. -/
inductive Prediction where
  | classification (value : Nat) (counts : List ℚ) (sum : ℚ)
  | regression (value : ℚ)
deriving DecidableEq, Repr

/-- Number of classes of the label column (distribution length for
classification predictions). -/
def ForestModel.numClasses (m : ForestModel) : Nat :=
  ((m.dataSpec[m.labelColIdx]?).map ColumnSpec.numClasses).getD 0

/-- Modelled from the spec: external columnar storage; each column is a
list of per-row values, `none` marking a missing value. -/
structure VerticalDataset where
  columns : List (List (Option ℚ))
deriving DecidableEq, Repr

/-- Row accessor derived from columnar storage: attribute value of the
given row, `none` when missing or out of range. -/
def VerticalDataset.accessor (ds : VerticalDataset) (row : Nat) :
    Nat → Option ℚ :=
  fun a => ((ds.columns[a]?).bind (fun col => col[row]?)).join

/-- Modelled from the spec: extraction of a single self-contained example
record from a row of columnar storage (one entry per schema column). -/
def VerticalDataset.extractExample (ds : VerticalDataset) (row : Nat) :
    List (Option ℚ) :=
  ds.columns.map (fun col => (col[row]?).join)

/-- Row accessor derived from a single-record example. -/
def exampleAccessor (ex : List (Option ℚ)) : Nat → Option ℚ :=
  fun a => (ex[a]?).join

/-- Modelled from the spec: `route` descends from the root, taking the
positive branch when `value >= threshold`, and the branch indicated by
`missing_value_direction` when the attribute value is missing, until a
leaf is reached. -/
def route (acc : Nat → Option ℚ) : Node → Node
  | .leaf v n => .leaf v n
  | .internal c _ pos neg =>
      let takePos : Bool :=
        match acc c.attributeIdx with
        | none => c.missingValueDirection
        | some v => decide (c.threshold ≤ v)
      if takePos then route acc pos else route acc neg

/-- Per-class count distribution of a leaf (empty for non-classifier
nodes). -/
def leafCounts : Node → List ℚ
  | .leaf (.classifier _ counts _) _ => counts
  | _ => []

/-- Distribution sum of a classification leaf (0 for other nodes). -/
def leafSum : Node → ℚ
  | .leaf (.classifier _ _ s) _ => s
  | _ => 0

/-- Scalar value of a regression leaf (0 for other nodes). -/
def leafRegValue : Node → ℚ
  | .leaf (.regressor v) _ => v
  | _ => 0

/-- Element-wise sum of two count vectors; the shorter one is padded
with zeros. -/
def addVec : List ℚ → List ℚ → List ℚ
  | [], ys => ys
  | x :: xs, [] => x :: xs
  | x :: xs, y :: ys => qadd x y :: addVec xs ys

/-- Index of the maximum of a list, ties broken by the smallest index
(0 on the empty list). -/
def idxOfMax : List ℚ → Nat
  | [] => 0
  | x :: xs =>
      let j := idxOfMax xs
      if x < (xs[j]?).getD x then j + 1 else 0

/-- Total per-class count distribution of a classification prediction:
element-wise sum over all trees of the routed leaves' distributions,
starting from a zero vector of the label's class count. -/
def totalCounts (m : ForestModel) (acc : Nat → Option ℚ) : List ℚ :=
  (m.trees.map (fun t => leafCounts (route acc t))).foldl addVec
    (List.replicate m.numClasses 0)

/-- Total distribution sum: sum across trees of the per-tree
distribution sums. -/
def totalSum (m : ForestModel) (acc : Nat → Option ℚ) : ℚ :=
  qsum (m.trees.map (fun t => leafSum (route acc t)))

/-- Modelled from the spec: `predict` routes the row through every tree
and aggregates the leaves; classification sums the per-class count
distributions and takes the index of the maximum total count (ties to
the smallest class index), regression takes the arithmetic mean of the
leaf values; a model with zero trees signals an error. -/
def predict (m : ForestModel) (acc : Nat → Option ℚ) :
    Except String Prediction :=
  if m.trees.isEmpty then .error "the model has zero trees"
  else
    match m.task with
    | .CLASSIFICATION =>
        .ok (.classification (idxOfMax (totalCounts m acc))
          (totalCounts m acc) (totalSum m acc))
    | .REGRESSION =>
        .ok (.regression
          (qdiv (qsum (m.trees.map (fun t => leafRegValue (route acc t))))
            (m.trees.length : ℚ)))

/-- Prediction on a row of columnar storage (row-index access path). -/
def ForestModel.PredictRow (m : ForestModel) (ds : VerticalDataset)
    (row : Nat) : Except String Prediction :=
  predict m (ds.accessor row)

/-- Prediction on a single self-contained example record. -/
def ForestModel.PredictExample (m : ForestModel)
    (ex : List (Option ℚ)) : Except String Prediction :=
  predict m (exampleAccessor ex)

/-- One-hot count vector of length `n` with a single 1 at `k`. -/
def oneHot (n k : Nat) : List ℚ :=
  (List.range n).map (fun i => if i = k then 1 else 0)

/-- The toy condition of the test suite: split on attribute 0 at the
given threshold; all other condition fields zero. -/
def toyCondition (alpha : ℚ) : Condition :=
  { attributeIdx := 0, threshold := alpha, missingValueDirection := false,
    splitScore := 0, numTrainingExamples := 0,
    numPosTrainingExamples := 0 }

/-- One toy tree of the test suite: root splits on attribute 0 at
`alpha`; the positive leaf predicts `beta`, the negative leaf `gamma`;
root, positive and negative nodes carry training counts 10, 8 and 2.
Classification leaves carry the one-hot distribution of their class
over the 3 label classes, with sum 1. -/
def toyTree (task : Task) (alpha : ℚ) (beta gamma : Nat) : Node :=
  let mkLeaf : Nat → Nat → Node := fun v npos =>
    match task with
    | .CLASSIFICATION => .leaf (.classifier v (oneHot 3 v) 1) npos
    | .REGRESSION => .leaf (.regressor (v : ℚ)) npos
  .internal (toyCondition alpha) 10 (mkLeaf beta 8) (mkLeaf gamma 2)

/-- The toy model of the test suite: two trees splitting on attribute 0
at thresholds 1 and 3, label column 1 with 3 classes. -/
def toyModel (task : Task) : ForestModel :=
  { trees := [toyTree task 1 0 1, toyTree task 3 2 1],
    task := task, labelColIdx := 1,
    dataSpec := [{ name := "a", numClasses := 0 },
                 { name := "b", numClasses := 3 }] }

/-- The toy dataset of the test suite: column a = 0, 2, 4 and column
b = 1, 2, 1. -/
def toyDataset : VerticalDataset :=
  { columns := [[some 0, some 2, some 4], [some 1, some 2, some 1]] }

/-- Number of nodes of a tree. -/
def numNodes : Node → Nat
  | .leaf _ _ => 1
  | .internal _ _ p n => 1 + numNodes p + numNodes n

/-- Total number of nodes of a model. -/
def ForestModel.NumNodes (m : ForestModel) : Nat :=
  (m.trees.map numNodes).sum

/-- Pre-order list of the nodes of a tree with their depths: the node
itself, then its entire positive subtree, then its entire negative
subtree. -/
def nodeList : Node → Nat → List (Node × Nat)
  | .leaf v k, d => [(.leaf v k, d)]
  | .internal c k p n, d =>
      (.internal c k p n, d) :: (nodeList p (d + 1) ++ nodeList n (d + 1))

/-- Modelled from the spec: `IterateOnNodes` visits every node of every
tree in ensemble order and, within a tree, pre-order, supplying
`(node, depth)` with root at depth 0; embedded as the list of visited
pairs. -/
def ForestModel.IterateOnNodes (m : ForestModel) : List (Node × Nat) :=
  (m.trees.map (fun t => nodeList t 0)).flatten

/-- Modelled from the spec: the mutable traversal variant visits the
same nodes in the same order, exposing mutable handles; embedded as the
same list of visited pairs. -/
def ForestModel.IterateOnMutableNodes (m : ForestModel) :
    List (Node × Nat) :=
  (m.trees.map (fun t => nodeList t 0)).flatten

/-- Modelled from the spec: `CallOnAllLeafs` routes the row through each
tree in ensemble order and invokes the visitor once per tree with the
routed leaf; embedded as the list of visited leaves. -/
def ForestModel.CallOnAllLeafs (m : ForestModel)
    (acc : Nat → Option ℚ) : List Node :=
  m.trees.map (route acc)

/-- Pre-order list of the positions of the nodes of a tree, a position
being the branch word leading to the node from the root (`true` =
positive child). -/
def nodePaths : Node → List (List Bool)
  | .leaf _ _ => [[]]
  | .internal _ _ p n =>
      [] :: ((nodePaths p).map (fun q => true :: q) ++
        (nodePaths n).map (fun q => false :: q))

/-- Subtree of a tree at a position (the tree itself when the position
runs past a leaf). -/
def subtreeAt : Node → List Bool → Node
  | t, [] => t
  | .leaf v k, _ :: _ => .leaf v k
  | .internal _ _ p n, b :: bs => subtreeAt (if b then p else n) bs

/-- Positions of all nodes of a list of trees, tagged with the tree
index starting at `i`. -/
def addressesFrom (i : Nat) : List Node → List (Nat × List Bool)
  | [] => []
  | t :: ts =>
      (nodePaths t).map (fun q => (i, q)) ++ addressesFrom (i + 1) ts

/-- Addresses (tree index, position) of all nodes of a model, in the
order the traversal visits them. -/
def ForestModel.nodeAddresses (m : ForestModel) :
    List (Nat × List Bool) :=
  addressesFrom 0 m.trees

/-- Whether a node is a leaf. -/
def isLeafNode : Node → Bool
  | .leaf _ _ => true
  | .internal _ _ _ _ => false

/-- The condition attribute of an internal node (`none` for a leaf). -/
def rootAttr : Node → Option Nat
  | .leaf _ _ => none
  | .internal c _ _ _ => some c.attributeIdx

/-- The attributes tested by the internal nodes of a tree, one entry
per internal node, in pre-order. -/
def internalAttrs : Node → List Nat
  | .leaf _ _ => []
  | .internal c _ p n =>
      c.attributeIdx :: (internalAttrs p ++ internalAttrs n)

/-- The attributes tested by all internal nodes of a model. -/
def ForestModel.internalAttrsAll (m : ForestModel) : List Nat :=
  (m.trees.map internalAttrs).flatten

/-- Increment the counter of key `a` in an association list, appending
a fresh entry with count 1 when the key is absent. -/
def bumpCount (a : Nat) : List (Nat × Nat) → List (Nat × Nat)
  | [] => [(a, 1)]
  | (b, c) :: rest =>
      if a = b then (b, c + 1) :: rest else (b, c) :: bumpCount a rest

/-- Modelled from the spec: `CountFeatureUsage` traverses every internal
node of every tree via the node traversal, incrementing the counter of
that node's condition attribute; attributes never used as a split are
absent from the mapping. -/
def ForestModel.CountFeatureUsage (m : ForestModel) :
    List (Nat × Nat) :=
  ((m.IterateOnNodes).filterMap (fun p => rootAttr p.1)).foldl
    (fun mp a => bumpCount a mp) []

/-- Minimum of two optional depths, `none` acting as the identity. -/
def optMin : Option Nat → Option Nat → Option Nat
  | none, b => b
  | some a, none => some a
  | some a, some b => some (min a b)

/-- Minimum depth (root at `d`) at which attribute `a` is used as a
split in a tree, `none` when the attribute is unused in the tree. -/
def minAttrDepth (a : Nat) : Node → Nat → Option Nat
  | .leaf _ _, _ => none
  | .internal c _ p n, d =>
      if c.attributeIdx = a then some d
      else optMin (minAttrDepth a p (d + 1)) (minAttrDepth a n (d + 1))

/-- Maximum leaf depth of a tree, root at `d`. -/
def maxLeafDepth : Node → Nat → Nat
  | .leaf _ _, d => d
  | .internal _ _ p n, d =>
      max (maxLeafDepth p (d + 1)) (maxLeafDepth n (d + 1))

/-- Per-tree minimum split depth of an attribute, defaulting to the
tree's maximum leaf depth when the attribute is unused in the tree. -/
def perTreeMinDepth (a : Nat) (t : Node) : Nat :=
  (minAttrDepth a t 0).getD (maxLeafDepth t 0)

/-- Modelled from the spec: MEAN_MIN_DEPTH value of an attribute, the
average over all trees of the per-tree minimum split depth with the
default-depth rule. -/
def meanMinDepthValue (m : ForestModel) (a : Nat) : ℚ :=
  qdiv ((m.trees.map (perTreeMinDepth a)).sum : ℚ) (m.trees.length : ℚ)

/-- The descending-by-value order on importance entries. -/
def valueGE (x y : Nat × ℚ) : Prop := y.2 ≤ x.2

instance : DecidableRel valueGE := fun x y => inferInstanceAs (Decidable (y.2 ≤ x.2))

/-- Sorting of importance entries, descending by value. -/
def sortDesc (l : List (Nat × ℚ)) : List (Nat × ℚ) :=
  l.insertionSort valueGE

instance : IsTotal (Nat × ℚ) valueGE :=
  ⟨fun a b => le_total b.2 a.2⟩

instance : IsTrans (Nat × ℚ) valueGE :=
  ⟨fun _ _ _ h1 h2 => le_trans h2 h1⟩

/-- MEAN_MIN_DEPTH entries before sorting: one entry per schema
attribute, including attributes never used in any tree. -/
def meanMinDepthEntries (m : ForestModel) : List (Nat × ℚ) :=
  (List.range m.dataSpec.length).map (fun a => (a, meanMinDepthValue m a))

/-- NUM_NODES entries before sorting: per used attribute, the number of
internal nodes over all trees whose condition references it. -/
def numNodesEntries (m : ForestModel) : List (Nat × ℚ) :=
  (m.CountFeatureUsage).map (fun p => (p.1, (p.2 : ℚ)))

/-- NUM_AS_ROOT entries before sorting: per attribute used at some
root, the number of trees whose root condition references it. -/
def numAsRootEntries (m : ForestModel) : List (Nat × ℚ) :=
  ((m.trees.filterMap rootAttr).foldl
    (fun mp a => bumpCount a mp) []).map (fun p => (p.1, (p.2 : ℚ)))

/-- The split scores of the internal nodes of a tree, paired with their
attributes, in pre-order. -/
def internalScores : Node → List (Nat × ℚ)
  | .leaf _ _ => []
  | .internal c _ p n =>
      (c.attributeIdx, c.splitScore) :: (internalScores p ++ internalScores n)

/-- Add `v` to the accumulator of key `a` in an association list. -/
def bumpScore (a : Nat) (v : ℚ) : List (Nat × ℚ) → List (Nat × ℚ)
  | [] => [(a, v)]
  | (b, c) :: rest =>
      if a = b then (b, qadd c v) :: rest
      else (b, c) :: bumpScore a v rest

/-- SUM_SCORE entries before sorting: per used attribute, the sum of
split scores of the internal nodes referencing it. -/
def sumScoreEntries (m : ForestModel) : List (Nat × ℚ) :=
  ((m.trees.map internalScores).flatten).foldl
    (fun mp p => bumpScore p.1 p.2 mp) []

/-- Modelled from the spec: `GetVariableImportance` dispatches on the
importance kind name, computes the per-attribute values and returns
them sorted descending by value; an unknown kind name fails with an
unsupported-importance-kind error. -/
def ForestModel.GetVariableImportance (m : ForestModel)
    (kind : String) : Except String (List (Nat × ℚ)) :=
  if kind = "NUM_NODES" then .ok (sortDesc (numNodesEntries m))
  else if kind = "NUM_AS_ROOT" then .ok (sortDesc (numAsRootEntries m))
  else if kind = "SUM_SCORE" then .ok (sortDesc (sumScoreEntries m))
  else if kind = "MEAN_MIN_DEPTH" then
    .ok (sortDesc (meanMinDepthEntries m))
  else .error "unsupported importance kind"

/-- Values of the leaves' `num_pos_training_examples_without_weight`,
in pre-order. -/
def leafObs : Node → List Nat
  | .leaf _ k => [k]
  | .internal _ _ p n => leafObs p ++ leafObs n

/-- Leaf observation counts of all trees of a model. -/
def ForestModel.leafObsAll (m : ForestModel) : List Nat :=
  (m.trees.map leafObs).flatten

/-- Modelled from the spec: `MinNumberObs` is the minimum of
`num_pos_training_examples_without_weight` over every leaf of every
tree; it fails when the model has no leaves. -/
def ForestModel.MinNumberObs (m : ForestModel) : Except String Nat :=
  match m.leafObsAll with
  | [] => .error "the model has no leaves"
  | x :: xs => .ok (xs.foldl min x)

/-- Whether an `Except` result is an error. -/
def isError {ε α : Type} : Except ε α → Bool
  | .error _ => true
  | .ok _ => false

/-- Smallest number of decimal digits (at most 17) after the point
needed to write the rational exactly; 17 when no such number exists. -/
def decDigits (q : ℚ) : Nat :=
  ((List.range 18).find? (fun k => 10 ^ k % q.den == 0)).getD 17

/-- Left-pad a digit list with zeros up to length `n`. -/
def padLeftZeros (n : Nat) (s : List Char) : List Char :=
  List.replicate (n - s.length) '0' ++ s

/-- Decimal rendering of an integer scaled by `10 ^ k`: the digits of
`n` with a point before the last `k` of them (none when `k = 0`). -/
def scaledDecimalString (n : Int) (k : Nat) : String :=
  let sign : String := if n < 0 then "-" else ""
  if k = 0 then sign ++ toString n.natAbs
  else
    let ds := padLeftZeros (k + 1) (toString n.natAbs).data
    sign ++ String.mk (ds.take (ds.length - k)) ++ "." ++
      String.mk (ds.drop (ds.length - k))

/-- Shortest decimal representation that round-trips the value
(`1` not `1.0`, `0.8` not `0.800000`). -/
def fmtShortest (q : ℚ) : String :=
  let k := decDigits q
  scaledDecimalString (q.num * ((10 ^ k / q.den : Nat) : Int)) k

/-- Fixed six-decimal rendering (the `%f` style of the renderer),
truncating toward zero past the sixth decimal. -/
def fmtF6 (q : ℚ) : String :=
  scaledDecimalString (Int.tdiv (q.num * 1000000) (q.den : Int)) 6

/-- Name of a schema column (empty when out of range). -/
def ForestModel.columnName (m : ForestModel) (a : Nat) : String :=
  ((m.dataSpec[a]?).map ColumnSpec.name).getD ""

/-- Value line body of a leaf: the top class code for classification,
the scalar for regression. -/
def leafValueText : LeafValue → String
  | .classifier top _ _ => toString top
  | .regressor v => fmtShortest v

/-- Textual rendering of a condition: quoted attribute name, the `>=`
operator with its operand, then the training statistics. -/
def conditionText (m : ForestModel) (c : Condition) : String :=
  "Condition:: \"" ++ m.columnName c.attributeIdx ++ "\">=" ++
    fmtShortest c.threshold ++ " score:" ++ fmtF6 c.splitScore ++
    " training_examples:" ++ toString c.numTrainingExamples ++
    " positive_training_examples:" ++
    toString c.numPosTrainingExamples ++
    " missing_value_evaluation:" ++
    (if c.missingValueDirection then "1" else "0")

/-- Indentation of `k` spaces. -/
def pad (k : Nat) : String :=
  String.mk (List.replicate k ' ')

/-- Modelled from the spec: recursive rendering of a node; an internal
node renders its condition line then the positive child under a
`Positive child` line and the negative child under a `Negative child`
line, children indented two further spaces; a leaf renders its value
line. -/
def renderNode (m : ForestModel) (indent : Nat) : Node → String
  | .leaf v _ => pad indent ++ "Value:: top:" ++ leafValueText v ++ "\n"
  | .internal c _ p n =>
      pad indent ++ conditionText m c ++ "\n" ++
      pad indent ++ "Positive child\n" ++ renderNode m (indent + 2) p ++
      pad indent ++ "Negative child\n" ++ renderNode m (indent + 2) n

/-- The block of one tree in the structure rendering: a header naming
the tree index, the rendered root, a blank line. -/
def renderTreeBlock (m : ForestModel) (i : Nat) (t : Node) : String :=
  "Tree #" ++ toString i ++ "\n" ++ renderNode m 0 t ++ "\n"

/-- Per-tree blocks of the structure rendering, in ensemble order,
tree indices starting at `i`. -/
def renderTreesFrom (m : ForestModel) (i : Nat) : List Node → String
  | [] => ""
  | t :: ts => renderTreeBlock m i t ++ renderTreesFrom m (i + 1) ts

/-- Modelled from the spec: `AppendModelStructure` emits the number of
trees then, for each tree in ensemble order, its block. -/
def ForestModel.AppendModelStructure (m : ForestModel) : String :=
  "Number of trees:" ++ toString m.trees.length ++ "\n" ++
    renderTreesFrom m 0 m.trees

/-- Modelled from the spec: a confusion matrix as consumed by the
snippet formatter (row-major counts, shape, total count). -/
structure ConfusionMatrix where
  counts : List ℚ
  nrow : Nat
  ncol : Nat
  sum : ℚ
deriving DecidableEq, Repr

/-- Trace of a confusion matrix: sum of its diagonal entries. -/
def ConfusionMatrix.trace (c : ConfusionMatrix) : ℚ :=
  qsum ((List.range (min c.nrow c.ncol)).map
    (fun i => ((c.counts[i * c.ncol + i]?).getD 0)))

/-- Modelled from the spec: evaluation results as consumed by the
snippet formatter. -/
structure EvaluationResults where
  confusion : ConfusionMatrix
  sumLogLoss : ℚ
  countPredictions : ℚ
deriving DecidableEq, Repr

/-- Modelled from the spec: `EvaluationSnippet` renders
`accuracy:<trace/total> logloss:<sumLogLoss/countPredictions>` with
shortest round-trip number formatting, and fails when
`count_predictions` is zero. -/
def EvaluationSnippet (e : EvaluationResults) : Except String String :=
  if e.countPredictions = 0 then
    .error "division by zero: no predictions"
  else
    .ok ("accuracy:" ++
      fmtShortest (qdiv e.confusion.trace e.confusion.sum) ++
      " logloss:" ++ fmtShortest (qdiv e.sumLogLoss e.countPredictions))

/-- The evaluation results of the test suite: 2 by 2 confusion matrix
4, 1, 1, 4 with total 10, log-loss sum 10 over 10 predictions. -/
def toyConfusion : ConfusionMatrix :=
  { counts := [4, 1, 1, 4], nrow := 2, ncol := 2, sum := 10 }

/-- The evaluation results of the test suite assembled. -/
def toyEvaluation : EvaluationResults :=
  { confusion := toyConfusion, sumLogLoss := 10, countPredictions := 10 }

/-- A classification model with zero trees (error boundary case). -/
def emptyModel : ForestModel :=
  { trees := [], task := Task.CLASSIFICATION, labelColIdx := 0,
    dataSpec := [] }

/-- The toy evaluation results with `count_predictions` zeroed
(error boundary case of the snippet formatter). -/
def toyEvaluationZero : EvaluationResults :=
  { confusion := toyConfusion, sumLogLoss := 10, countPredictions := 0 }

theorem den_cast_ne (a : ℚ) : ((a.den : ℚ)) ≠ 0 :=
  Nat.cast_ne_zero.mpr a.den_nz

theorem qadd_eq (a b : ℚ) : qadd a b = a + b := by
  rw [qadd, Rat.divInt_eq_div]
  push_cast
  conv_rhs => rw [← Rat.num_div_den a, ← Rat.num_div_den b]
  rw [div_add_div _ _ (den_cast_ne a) (den_cast_ne b)]
  congr 1
  ring

theorem qmul_eq (a b : ℚ) : qmul a b = a * b := by
  rw [qmul, Rat.divInt_eq_div]
  push_cast
  conv_rhs => rw [← Rat.num_div_den a, ← Rat.num_div_den b]
  rw [div_mul_div_comm]

theorem qdiv_eq (a b : ℚ) : qdiv a b = a / b := by
  rcases eq_or_ne b 0 with hb | hb
  · subst hb
    simp [qdiv]
  · have h3 : ((b.num : ℚ)) ≠ 0 :=
      Int.cast_ne_zero.mpr (Rat.num_ne_zero.mpr hb)
    rw [qdiv, Rat.divInt_eq_div]
    push_cast
    rw [div_eq_div_iff (mul_ne_zero (den_cast_ne a) h3) hb]
    have hbd : ((b.den : ℚ)) * b = ((b.num : ℚ)) := by
      rw [mul_comm]
      exact ((div_eq_iff (den_cast_ne b)).mp (Rat.num_div_den b)).symm
    have had : a * ((a.den : ℚ)) = ((a.num : ℚ)) :=
      ((div_eq_iff (den_cast_ne a)).mp (Rat.num_div_den a)).symm
    rw [mul_assoc ((a.num : ℚ)) ((b.den : ℚ)) b, hbd,
      ← mul_assoc a ((a.den : ℚ)) ((b.num : ℚ)), had]

theorem qsum_eq (l : List ℚ) : qsum l = l.sum := by
  induction l with
  | nil => rfl
  | cons x xs ih => simp [qsum, qadd_eq, List.sum_cons] at ih ⊢; rw [ih]

theorem accessor_extract (ds : VerticalDataset) (row : Nat) :
    ds.accessor row = exampleAccessor (ds.extractExample row) := by
  funext a
  simp only [VerticalDataset.accessor, exampleAccessor,
    VerticalDataset.extractExample, List.getElem?_map]
  cases ds.columns[a]? with
  | none => rfl
  | some col => rfl

/-- C2: for every model and row, prediction through the row-index
access path into columnar storage and prediction on the extracted
self-contained example record yield identical `Prediction` values. -/
theorem claim_C2_row_and_example_access_agree :
    ∀ (m : ForestModel) (ds : VerticalDataset) (row : Nat),
    m.PredictRow ds row = m.PredictExample (ds.extractExample row) := by
  intro m ds row
  unfold ForestModel.PredictRow ForestModel.PredictExample
  rw [accessor_extract]

set_option maxRecDepth 8000 in
/-- C7: the structure rendering emits, for each tree in ensemble
order, a header naming the tree index, then the root condition line
(attribute name, operator, operand and training statistics), then the
positive child, then the negative child; on the toy model it produces
exactly the golden text of the test suite. -/
theorem claim_C7_render_structure :
    (∀ (m : ForestModel) (i : Nat) (t : Node) (ts : List Node),
      renderTreesFrom m i (t :: ts) =
        "Tree #" ++ toString i ++ "\n" ++ renderNode m 0 t ++ "\n" ++
          renderTreesFrom m (i + 1) ts)
    ∧ (∀ (m : ForestModel) (ind : Nat) (c : Condition) (k : Nat)
        (p n : Node),
      renderNode m ind (.internal c k p n) =
        pad ind ++ conditionText m c ++ "\n" ++
          pad ind ++ "Positive child\n" ++ renderNode m (ind + 2) p ++
          pad ind ++ "Negative child\n" ++ renderNode m (ind + 2) n)
    ∧ (toyModel Task.CLASSIFICATION).AppendModelStructure =
        "Number of trees:2\nTree #0\nCondition:: \"a\">=1 score:0.000000 training_examples:0 positive_training_examples:0 missing_value_evaluation:0\nPositive child\n  Value:: top:0\nNegative child\n  Value:: top:1\n\nTree #1\nCondition:: \"a\">=3 score:0.000000 training_examples:0 positive_training_examples:0 missing_value_evaluation:0\nPositive child\n  Value:: top:2\nNegative child\n  Value:: top:1\n\n" := by
  refine ⟨?_, ?_, by decide⟩
  · intro m i t ts
    simp [renderTreesFrom, renderTreeBlock]
  · intro m ind c k p n
    simp [renderNode]

/-- C8: the evaluation snippet is `accuracy:<a> logloss:<b>` with
`a = trace / total` and `b = sum_log_loss / count_predictions`, each
trimmed to the shortest round-tripping decimal; it fails when
`count_predictions` is zero; the toy results (diagonal 8, total 10,
log-loss 10 over 10 predictions) give exactly
`accuracy:0.8 logloss:1`. -/
theorem claim_C8_evaluation_snippet :
    ∀ e : EvaluationResults,
    (e.countPredictions ≠ 0 →
      EvaluationSnippet e = Except.ok ("accuracy:" ++
        fmtShortest (e.confusion.trace / e.confusion.sum) ++ " logloss:" ++
        fmtShortest (e.sumLogLoss / e.countPredictions)))
    ∧ (e.countPredictions = 0 → isError (EvaluationSnippet e) = true)
    ∧ toyConfusion.trace = 8
    ∧ EvaluationSnippet toyEvaluation = Except.ok "accuracy:0.8 logloss:1" := by
  intro e
  refine ⟨fun h => ?_, fun h => ?_, by decide, by decide⟩
  · simp [EvaluationSnippet, h, qdiv_eq]
  · simp [EvaluationSnippet, h, isError]

theorem claim_C8_evaluation_snippet_witness :
    EvaluationSnippet toyEvaluation = Except.ok ("accuracy:" ++
      fmtShortest (toyEvaluation.confusion.trace /
        toyEvaluation.confusion.sum) ++ " logloss:" ++
      fmtShortest (toyEvaluation.sumLogLoss /
        toyEvaluation.countPredictions))
    ∧ isError (EvaluationSnippet toyEvaluationZero) = true :=
  ⟨(claim_C8_evaluation_snippet toyEvaluation).1 (by decide),
   (claim_C8_evaluation_snippet toyEvaluationZero).2.1 rfl⟩

theorem rootAttr_internal (c : Condition) (k : Nat) (p n : Node) :
    rootAttr (.internal c k p n) = some c.attributeIdx := rfl

theorem nodeList_length (t : Node) :
    ∀ d : Nat, (nodeList t d).length = numNodes t := by
  induction t with
  | leaf v k => intro d; rfl
  | internal c k p n ihp ihn =>
    intro d
    simp [nodeList, numNodes, ihp, ihn]
    omega

theorem nodePaths_length (t : Node) :
    (nodePaths t).length = numNodes t := by
  induction t with
  | leaf v k => rfl
  | internal c k p n ihp ihn =>
    simp [nodePaths, numNodes, ihp, ihn]
    omega

theorem nodePaths_nodup (t : Node) : (nodePaths t).Nodup := by
  induction t with
  | leaf v k => simp [nodePaths]
  | internal c k p n ihp ihn =>
    simp only [nodePaths, List.nodup_cons, List.mem_append,
      List.mem_map, List.nodup_append]
    refine ⟨?_, ?_, ?_, ?_⟩
    · rintro (⟨q, _, hq⟩ | ⟨q, _, hq⟩) <;> cases hq
    · exact ihp.map (fun q r h => by injection h)
    · exact ihn.map (fun q r h => by injection h)
    · intro x hx hy
      obtain ⟨q, _, hq⟩ := List.mem_map.mp hx
      obtain ⟨r, _, hr⟩ := List.mem_map.mp hy
      rw [← hq] at hr
      injection hr with h1 h2
      cases h1

theorem addressesFrom_bounds (ts : List Node) :
    ∀ (i : Nat) (x : Nat × List Bool), x ∈ addressesFrom i ts →
    i ≤ x.1 := by
  induction ts with
  | nil => intro i x hx; cases hx
  | cons t ts ih =>
    intro i x hx
    rcases List.mem_append.mp hx with h | h
    · obtain ⟨q, _, hq⟩ := List.mem_map.mp h
      rw [← hq]
    · exact le_trans (Nat.le_succ i) (ih (i + 1) x h)

theorem addressesFrom_nodup (ts : List Node) :
    ∀ i : Nat, (addressesFrom i ts).Nodup := by
  induction ts with
  | nil => intro i; exact List.nodup_nil
  | cons t ts ih =>
    intro i
    rw [addressesFrom, List.nodup_append]
    refine ⟨(nodePaths_nodup t).map (fun q r h => by injection h), ih (i + 1), ?_⟩
    intro x hx hy
    obtain ⟨q, _, hq⟩ := List.mem_map.mp hx
    have hb := addressesFrom_bounds ts (i + 1) x hy
    rw [← hq] at hb
    omega

theorem addressesFrom_length (ts : List Node) :
    ∀ i : Nat, (addressesFrom i ts).length = (ts.map numNodes).sum := by
  induction ts with
  | nil => intro i; rfl
  | cons t ts ih =>
    intro i
    simp [addressesFrom, nodePaths_length, ih]

theorem subtreeAt_cons_true (c : Condition) (k : Nat) (p n : Node)
    (q : List Bool) :
    subtreeAt (.internal c k p n) (true :: q) = subtreeAt p q := by
  simp [subtreeAt]

theorem subtreeAt_cons_false (c : Condition) (k : Nat) (p n : Node)
    (q : List Bool) :
    subtreeAt (.internal c k p n) (false :: q) = subtreeAt n q := by
  simp [subtreeAt]

theorem nodeList_map_fst (t : Node) :
    ∀ d : Nat,
    (nodeList t d).map Prod.fst = (nodePaths t).map (subtreeAt t) := by
  induction t with
  | leaf v k => intro d; rfl
  | internal c k p n ihp ihn =>
    intro d
    have hp : (nodePaths p).map
        (subtreeAt (Node.internal c k p n) ∘ fun q => true :: q) =
        (nodePaths p).map (subtreeAt p) :=
      List.map_congr_left (fun q _ => by
        simp [Function.comp, subtreeAt_cons_true])
    have hn2 : (nodePaths n).map
        (subtreeAt (Node.internal c k p n) ∘ fun q => false :: q) =
        (nodePaths n).map (subtreeAt n) :=
      List.map_congr_left (fun q _ => by
        simp [Function.comp, subtreeAt_cons_false])
    simp only [nodeList, nodePaths, List.map_cons, List.map_append,
      List.map_map, ihp, ihn, hp, hn2, subtreeAt]

theorem route_isLeaf (acc : Nat → Option ℚ) (t : Node) :
    isLeafNode (route acc t) = true := by
  induction t with
  | leaf v k => rfl
  | internal c k p n ihp ihn =>
    rw [route]
    split
    · exact ihp
    · exact ihn

/-- C4: the node traversal and its mutable variant visit exactly
`NumNodes` nodes, each node exactly once (the visited per-tree
addresses are the distinct pre-order positions, in bijection with the
visited node list), and `CallOnAllLeafs` invokes its visitor exactly
once per tree, each invocation receiving the leaf that `route` reaches
for that tree and row. -/
theorem claim_C4_traversal :
    ∀ (m : ForestModel) (acc : Nat → Option ℚ),
    m.IterateOnNodes.length = m.NumNodes
    ∧ m.IterateOnMutableNodes = m.IterateOnNodes
    ∧ m.nodeAddresses.Nodup
    ∧ m.nodeAddresses.length = m.NumNodes
    ∧ (∀ t ∈ m.trees, (nodeList t 0).map Prod.fst =
        (nodePaths t).map (subtreeAt t))
    ∧ m.CallOnAllLeafs acc = m.trees.map (route acc)
    ∧ (m.CallOnAllLeafs acc).length = m.trees.length
    ∧ (∀ l ∈ m.CallOnAllLeafs acc, isLeafNode l = true) := by
  intro m acc
  refine ⟨?_, rfl, addressesFrom_nodup m.trees 0,
    addressesFrom_length m.trees 0, fun t _ => nodeList_map_fst t 0,
    rfl, by simp [ForestModel.CallOnAllLeafs], fun l hl => ?_⟩
  · unfold ForestModel.IterateOnNodes ForestModel.NumNodes
    rw [List.length_flatten, List.map_map]
    congr 1
    apply List.map_congr_left
    intro t _
    simp [Function.comp, nodeList_length]
  · obtain ⟨t, _, ht⟩ :=
      List.mem_map.mp (by simpa [ForestModel.CallOnAllLeafs] using hl)
    rw [← ht]
    exact route_isLeaf acc t

theorem nodeList_filterMap_rootAttr (t : Node) :
    ∀ d : Nat,
    (nodeList t d).filterMap (fun p => rootAttr p.1) = internalAttrs t := by
  induction t with
  | leaf v k => intro d; rfl
  | internal c k p n ihp ihn =>
    intro d
    simp only [nodeList, internalAttrs, List.filterMap_cons,
      List.filterMap_append, ihp, ihn, rootAttr_internal]

theorem iterate_filterMap_rootAttr (m : ForestModel) :
    (m.IterateOnNodes).filterMap (fun p => rootAttr p.1) =
      m.internalAttrsAll := by
  unfold ForestModel.IterateOnNodes ForestModel.internalAttrsAll
  induction m.trees with
  | nil => rfl
  | cons t ts ih =>
    simp only [List.map_cons, List.flatten_cons, List.filterMap_append,
      ih, nodeList_filterMap_rootAttr]

theorem lookup_bumpCount_self (mp : List (Nat × Nat)) (a : Nat) :
    (bumpCount a mp).lookup a = some (((mp.lookup a).getD 0) + 1) := by
  induction mp with
  | nil => simp [bumpCount, List.lookup]
  | cons e rest ih =>
    obtain ⟨b, c⟩ := e
    by_cases hab : a = b
    · subst hab
      simp [bumpCount, List.lookup]
    · simp [bumpCount, hab, List.lookup, ih, beq_false_of_ne hab]

theorem lookup_bumpCount_ne (mp : List (Nat × Nat)) (a b : Nat)
    (hne : b ≠ a) : (bumpCount a mp).lookup b = mp.lookup b := by
  induction mp with
  | nil => simp [bumpCount, List.lookup, beq_false_of_ne hne]
  | cons e rest ih =>
    obtain ⟨x, c⟩ := e
    by_cases hax : a = x
    · subst hax
      simp [bumpCount, List.lookup, beq_false_of_ne hne]
    · by_cases hbx : b = x
      · subst hbx
        simp [bumpCount, hax, List.lookup]
      · simp [bumpCount, hax, List.lookup, beq_false_of_ne hbx, ih]

theorem lookup_foldl_bump_not_mem (l : List Nat) :
    ∀ (mp : List (Nat × Nat)) (b : Nat), b ∉ l →
    ((l.foldl (fun mp a => bumpCount a mp) mp).lookup b) = mp.lookup b := by
  induction l with
  | nil => intro mp b _; rfl
  | cons a rest ih =>
    intro mp b hb
    have hba : b ≠ a := fun h => hb (h ▸ List.mem_cons_self a rest)
    have hbr : b ∉ rest := fun h => hb (List.mem_cons_of_mem a h)
    rw [List.foldl_cons, ih (bumpCount a mp) b hbr,
      lookup_bumpCount_ne mp a b hba]

theorem lookup_foldl_bump_mem (l : List Nat) :
    ∀ (mp : List (Nat × Nat)) (b : Nat), b ∈ l →
    ((l.foldl (fun mp a => bumpCount a mp) mp).lookup b) =
      some (((mp.lookup b).getD 0) + l.count b) := by
  induction l with
  | nil => intro mp b hb; cases hb
  | cons a rest ih =>
    intro mp b hb
    by_cases hbr : b ∈ rest
    · rw [List.foldl_cons, ih (bumpCount a mp) b hbr]
      by_cases hba : b = a
      · subst hba
        rw [lookup_bumpCount_self, List.count_cons_self]
        simp
        omega
      · rw [lookup_bumpCount_ne mp a b hba,
          List.count_cons_of_ne hba]
    · have hba : b = a := by
        rcases List.mem_cons.mp hb with h | h
        · exact h
        · exact absurd h hbr
      subst hba
      rw [List.foldl_cons, lookup_foldl_bump_not_mem rest _ b hbr,
        lookup_bumpCount_self, List.count_cons_self,
        List.count_eq_zero_of_not_mem hbr]

theorem sortDesc_perm (l : List (Nat × ℚ)) : (sortDesc l).Perm l :=
  List.perm_insertionSort valueGE l

theorem sortDesc_sorted (l : List (Nat × ℚ)) :
    (sortDesc l).Pairwise valueGE :=
  List.sorted_insertionSort valueGE l

theorem meanMinDepthEntries_map_fst (m : ForestModel) :
    (meanMinDepthEntries m).map Prod.fst =
      List.range m.dataSpec.length := by
  unfold meanMinDepthEntries
  have hcomp : (Prod.fst ∘ fun a => (a, meanMinDepthValue m a)) =
      (id : Nat → Nat) := rfl
  rw [List.map_map, hcomp, List.map_id]

/-- C5: the MEAN_MIN_DEPTH importance reports every schema attribute
(also those never used in any tree), giving each the average over all
trees of the minimum split depth with the per-tree maximum-leaf-depth
default, ordered descending by value; on the toy model the unused
label attribute 1 is ranked above attribute 0 with values 1 and 0. -/
theorem claim_C5_mean_min_depth :
    ∀ (m : ForestModel) (l : List (Nat × ℚ)),
    m.GetVariableImportance "MEAN_MIN_DEPTH" = Except.ok l →
    (l.map Prod.fst).Perm (List.range m.dataSpec.length)
    ∧ (l.all (fun p => decide (p.2 = meanMinDepthValue m p.1)) = true)
    ∧ l.Pairwise valueGE
    ∧ (toyModel Task.CLASSIFICATION).GetVariableImportance
        "MEAN_MIN_DEPTH" = Except.ok [(1, 1), (0, 0)] := by
  intro m l h
  have hdef : m.GetVariableImportance "MEAN_MIN_DEPTH" =
      Except.ok (sortDesc (meanMinDepthEntries m)) := rfl
  rw [hdef] at h
  have hl : l = sortDesc (meanMinDepthEntries m) := by
    cases h
    rfl
  subst hl
  refine ⟨?_, ?_, sortDesc_sorted _, by decide⟩
  · have hp := (sortDesc_perm (meanMinDepthEntries m)).map Prod.fst
    rw [meanMinDepthEntries_map_fst] at hp
    exact hp
  · simp only [List.all_eq_true, decide_eq_true_eq]
    intro p hp
    have hmem : p ∈ meanMinDepthEntries m :=
      (sortDesc_perm (meanMinDepthEntries m)).mem_iff.mp hp
    obtain ⟨a, _, ha⟩ := List.mem_map.mp hmem
    rw [← ha]

theorem claim_C5_mean_min_depth_witness :
    (([((1 : Nat), (1 : ℚ)), (0, 0)].map Prod.fst).Perm
      (List.range (toyModel Task.CLASSIFICATION).dataSpec.length))
    ∧ ([((1 : Nat), (1 : ℚ)), (0, 0)].all (fun p =>
        decide (p.2 = meanMinDepthValue (toyModel Task.CLASSIFICATION)
          p.1)) = true)
    ∧ List.Pairwise valueGE [((1 : Nat), (1 : ℚ)), (0, 0)]
    ∧ (toyModel Task.CLASSIFICATION).GetVariableImportance
        "MEAN_MIN_DEPTH" = Except.ok [(1, 1), (0, 0)] :=
  claim_C5_mean_min_depth (toyModel Task.CLASSIFICATION)
    [(1, 1), (0, 0)] (by decide)

/-- C6: `CountFeatureUsage` maps each attribute used as a split to the
number of internal nodes across all trees whose condition references
it; attributes never used as a split are absent from the mapping; the
toy model (both roots split on attribute 0) gives exactly the mapping
0 to 2 of size one. -/
theorem claim_C6_count_feature_usage :
    ∀ (m : ForestModel) (a c : Nat),
    ((m.CountFeatureUsage).lookup a = some c →
      c = m.internalAttrsAll.count a ∧ c ≠ 0)
    ∧ (a ∈ m.internalAttrsAll →
      (m.CountFeatureUsage).lookup a =
        some (m.internalAttrsAll.count a))
    ∧ (a ∉ m.internalAttrsAll → (m.CountFeatureUsage).lookup a = none)
    ∧ (toyModel Task.CLASSIFICATION).CountFeatureUsage = [(0, 2)] := by
  intro m a c
  have hmem : a ∈ m.internalAttrsAll →
      (m.CountFeatureUsage).lookup a =
        some (m.internalAttrsAll.count a) := by
    intro ha
    unfold ForestModel.CountFeatureUsage
    rw [iterate_filterMap_rootAttr,
      lookup_foldl_bump_mem m.internalAttrsAll [] a ha]
    simp [List.lookup]
  have hnot : a ∉ m.internalAttrsAll →
      (m.CountFeatureUsage).lookup a = none := by
    intro ha
    unfold ForestModel.CountFeatureUsage
    rw [iterate_filterMap_rootAttr,
      lookup_foldl_bump_not_mem m.internalAttrsAll [] a ha]
    rfl
  refine ⟨fun h => ?_, hmem, hnot, by decide⟩
  by_cases ha : a ∈ m.internalAttrsAll
  · rw [hmem ha] at h
    have hc : c = m.internalAttrsAll.count a := by
      cases h
      rfl
    refine ⟨hc, ?_⟩
    rw [hc]
    have := List.count_pos_iff.mpr ha
    omega
  · rw [hnot ha] at h
    cases h

theorem claim_C6_count_feature_usage_witness :
    (2 = (toyModel Task.CLASSIFICATION).internalAttrsAll.count 0 ∧ 2 ≠ 0)
    ∧ (toyModel Task.CLASSIFICATION).CountFeatureUsage.lookup 1 = none :=
  ⟨(claim_C6_count_feature_usage (toyModel Task.CLASSIFICATION) 0 2).1
      (by decide),
   (claim_C6_count_feature_usage (toyModel Task.CLASSIFICATION) 1 0).2.2.1
      (by decide)⟩

/-- C10: an unrecognized importance kind name makes
`GetVariableImportance` fail with the unsupported-importance-kind
error, and `predict` on a model with zero trees fails rather than
returning a prediction. -/
theorem claim_C10_error_boundaries :
    ∀ (m : ForestModel) (kind : String) (acc : Nat → Option ℚ),
    (kind ≠ "NUM_NODES" → kind ≠ "NUM_AS_ROOT" → kind ≠ "SUM_SCORE" →
      kind ≠ "MEAN_MIN_DEPTH" →
      m.GetVariableImportance kind =
        Except.error "unsupported importance kind")
    ∧ (m.trees = [] → isError (predict m acc) = true) := by
  intro m kind acc
  constructor
  · intro h1 h2 h3 h4
    simp [ForestModel.GetVariableImportance, h1, h2, h3, h4]
  · intro h
    simp [predict, h, isError]

theorem addVec_getElem (xs : List ℚ) :
    ∀ (ys : List ℚ) (j : Nat),
    ((addVec xs ys)[j]?).getD 0 = (xs[j]?).getD 0 + (ys[j]?).getD 0 := by
  induction xs with
  | nil => intro ys j; simp [addVec]
  | cons x xs ih =>
    intro ys j
    cases ys with
    | nil => simp [addVec]
    | cons y ys =>
      cases j with
      | zero => simp [addVec, qadd_eq]
      | succ j => simp [addVec, ih]

theorem foldl_addVec_getElem (L : List (List ℚ)) :
    ∀ (acc : List ℚ) (j : Nat),
    (((L.foldl addVec acc)[j]?).getD 0) =
      ((acc[j]?).getD 0) + (L.map (fun l => (l[j]?).getD 0)).sum := by
  induction L with
  | nil => intro acc j; simp
  | cons l L ih =>
    intro acc j
    rw [List.foldl_cons, ih (addVec acc l) j, addVec_getElem]
    simp [List.sum_cons]
    ring

theorem replicate_getD (n j : Nat) :
    (((List.replicate n (0 : ℚ))[j]?).getD 0) = 0 := by
  by_cases h : j < n
  · simp [List.getElem?_replicate, h]
  · simp [List.getElem?_replicate, h]

theorem totalCounts_getElem (m : ForestModel) (acc : Nat → Option ℚ)
    (j : Nat) :
    ((totalCounts m acc)[j]?).getD 0 =
      (m.trees.map
        (fun t => ((leafCounts (route acc t))[j]?).getD 0)).sum := by
  unfold totalCounts
  rw [foldl_addVec_getElem, replicate_getD, List.map_map, zero_add]
  rfl

theorem idxOfMax_spec (l : List ℚ) : l ≠ [] →
    idxOfMax l < l.length ∧
    (∀ i, i < l.length →
      (l[i]?).getD 0 ≤ (l[idxOfMax l]?).getD 0) ∧
    (∀ i, i < idxOfMax l →
      (l[i]?).getD 0 < (l[idxOfMax l]?).getD 0) := by
  induction l with
  | nil => intro h; exact absurd rfl h
  | cons x xs ih =>
    intro _
    by_cases hxs : xs = []
    · subst hxs
      refine ⟨by simp [idxOfMax], fun i hi => ?_, fun i hi => ?_⟩
      · have hi0 : i = 0 := Nat.lt_one_iff.mp (by simpa using hi)
        subst hi0
        simp [idxOfMax]
      · simp [idxOfMax] at hi
    · obtain ⟨hlt, hle, hfirst⟩ := ih hxs
      have hsome : xs[idxOfMax xs]? = some (xs.get ⟨idxOfMax xs, hlt⟩) := by
        rw [List.getElem?_eq_getElem hlt]
        rfl
      set mv := xs.get ⟨idxOfMax xs, hlt⟩ with hmv
      have hred : idxOfMax (x :: xs) =
          if x < mv then idxOfMax xs + 1 else 0 := by
        simp only [idxOfMax, hsome]
        rfl
      by_cases hcmp : x < mv
      · rw [hred, if_pos hcmp]
        refine ⟨by simpa using Nat.succ_lt_succ hlt, fun i hi => ?_,
          fun i hi => ?_⟩
        · cases i with
          | zero =>
            simp only [List.getElem?_cons_zero, List.getElem?_cons_succ,
              hsome]
            simpa using le_of_lt hcmp
          | succ i =>
            simp only [List.getElem?_cons_succ]
            exact hle i (by simpa using hi)
        · cases i with
          | zero =>
            simp only [List.getElem?_cons_zero, List.getElem?_cons_succ,
              hsome]
            simpa using hcmp
          | succ i =>
            simp only [List.getElem?_cons_succ]
            exact hfirst i (by omega)
      · rw [hred, if_neg hcmp]
        refine ⟨by simp, fun i hi => ?_, fun i hi => ?_⟩
        · cases i with
          | zero => simp
          | succ i =>
            simp only [List.getElem?_cons_succ, List.getElem?_cons_zero]
            have h1 : (xs[i]?).getD 0 ≤ (xs[idxOfMax xs]?).getD 0 :=
              hle i (by simpa using hi)
            have h2 : (xs[idxOfMax xs]?).getD 0 ≤ x := by
              rw [hsome]
              simpa using le_of_not_lt hcmp
            exact le_trans h1 h2
        · omega

/-- C1: classification prediction element-wise sums the routed leaves'
per-class count distributions, sets the distribution sum to the sum of
the per-tree distribution sums, and predicts the index of the maximum
total count with ties to the smallest class index; on the toy model,
row 1 predicts class 0 with counts 1, 1, 0 and sum 2. -/
theorem claim_C1_predict_classification :
    ∀ (m : ForestModel) (acc : Nat → Option ℚ) (j : Nat),
    m.task = Task.CLASSIFICATION → m.trees ≠ [] →
    (predict m acc = Except.ok (Prediction.classification
        (idxOfMax (totalCounts m acc)) (totalCounts m acc)
        (totalSum m acc))
      ∧ ((totalCounts m acc)[j]?).getD 0 =
        (m.trees.map
          (fun t => ((leafCounts (route acc t))[j]?).getD 0)).sum
      ∧ totalSum m acc =
        (m.trees.map (fun t => leafSum (route acc t))).sum
      ∧ (totalCounts m acc ≠ [] →
          idxOfMax (totalCounts m acc) < (totalCounts m acc).length
          ∧ ((List.range (totalCounts m acc).length).all (fun i =>
              decide (((totalCounts m acc)[i]?).getD 0 ≤
                ((totalCounts m acc)[idxOfMax (totalCounts m acc)]?).getD 0))
              = true)
          ∧ ((List.range (idxOfMax (totalCounts m acc))).all (fun i =>
              decide (((totalCounts m acc)[i]?).getD 0 <
                ((totalCounts m acc)[idxOfMax (totalCounts m acc)]?).getD 0))
              = true))
      ∧ (toyModel Task.CLASSIFICATION).PredictRow toyDataset 1 =
          Except.ok (Prediction.classification 0 [1, 1, 0] 2)) := by
  intro m acc j ht hne
  have hemp : m.trees.isEmpty = false := by
    simp [List.isEmpty_iff, hne]
  refine ⟨by simp [predict, hemp, ht], totalCounts_getElem m acc j,
    by rw [totalSum, qsum_eq], fun hN => ?_, by decide⟩
  obtain ⟨h1, h2, h3⟩ := idxOfMax_spec (totalCounts m acc) hN
  refine ⟨h1, ?_, ?_⟩
  · simp only [List.all_eq_true, List.mem_range, decide_eq_true_eq]
    exact h2
  · simp only [List.all_eq_true, List.mem_range, decide_eq_true_eq]
    exact h3

theorem claim_C1_predict_classification_witness :
    predict (toyModel Task.CLASSIFICATION) (toyDataset.accessor 1) =
      Except.ok (Prediction.classification
        (idxOfMax (totalCounts (toyModel Task.CLASSIFICATION)
          (toyDataset.accessor 1)))
        (totalCounts (toyModel Task.CLASSIFICATION) (toyDataset.accessor 1))
        (totalSum (toyModel Task.CLASSIFICATION)
          (toyDataset.accessor 1))) :=
  (claim_C1_predict_classification (toyModel Task.CLASSIFICATION)
    (toyDataset.accessor 1) 1 rfl (by decide)).1

/-- C3: regression prediction is the arithmetic mean of the routed
leaves' scalar values (their sum divided by the number of trees;
multiplying the prediction back by the tree count recovers the sum);
on the toy regression model, row 1 predicts 0.5. -/
theorem claim_C3_predict_regression :
    ∀ (m : ForestModel) (acc : Nat → Option ℚ),
    (m.task = Task.REGRESSION → m.trees ≠ [] →
      predict m acc = Except.ok (Prediction.regression
        ((m.trees.map (fun t => leafRegValue (route acc t))).sum /
          (m.trees.length : ℚ)))
      ∧ ((m.trees.map (fun t => leafRegValue (route acc t))).sum /
          (m.trees.length : ℚ)) * (m.trees.length : ℚ) =
        (m.trees.map (fun t => leafRegValue (route acc t))).sum)
    ∧ (toyModel Task.REGRESSION).PredictRow toyDataset 1 =
        Except.ok (Prediction.regression (1 / 2)) := by
  intro m acc
  constructor
  · intro ht hne
    have hemp : m.trees.isEmpty = false := by
      simp [List.isEmpty_iff, hne]
    constructor
    · simp [predict, hemp, ht, qdiv_eq, qsum_eq]
    · rw [div_mul_cancel₀]
      exact Nat.cast_ne_zero.mpr (fun h => hne (List.length_eq_zero.mp h))
  · have h2 : ((1 : ℚ) / 2) = Rat.divInt 1 2 := by
      rw [Rat.divInt_eq_div]
      norm_num
    rw [h2]
    decide

theorem claim_C3_predict_regression_witness :
    predict (toyModel Task.REGRESSION) (toyDataset.accessor 1) =
      Except.ok (Prediction.regression
        (((toyModel Task.REGRESSION).trees.map
          (fun t => leafRegValue (route (toyDataset.accessor 1) t))).sum /
          ((toyModel Task.REGRESSION).trees.length : ℚ))) :=
  ((claim_C3_predict_regression (toyModel Task.REGRESSION)
    (toyDataset.accessor 1)).1 rfl (by decide)).1

theorem foldl_min_le_init (xs : List Nat) :
    ∀ x : Nat, xs.foldl min x ≤ x := by
  induction xs with
  | nil => intro x; exact le_refl x
  | cons y ys ih =>
    intro x
    calc (y :: ys).foldl min x = ys.foldl min (min x y) := rfl
    _ ≤ min x y := ih (min x y)
    _ ≤ x := min_le_left x y

theorem foldl_min_le_mem (xs : List Nat) :
    ∀ (x u : Nat), u ∈ xs → xs.foldl min x ≤ u := by
  induction xs with
  | nil => intro x u hu; cases hu
  | cons y ys ih =>
    intro x u hu
    rcases List.mem_cons.mp hu with h | h
    · subst h
      calc (u :: ys).foldl min x = ys.foldl min (min x u) := rfl
      _ ≤ min x u := foldl_min_le_init ys (min x u)
      _ ≤ u := min_le_right x u
    · exact ih (min x y) u h

theorem foldl_min_mem (xs : List Nat) :
    ∀ x : Nat, xs.foldl min x = x ∨ xs.foldl min x ∈ xs := by
  induction xs with
  | nil => intro x; exact Or.inl rfl
  | cons y ys ih =>
    intro x
    rcases ih (min x y) with h | h
    · rcases min_choice x y with hc | hc
      · left
        rw [List.foldl_cons, h, hc]
      · right
        rw [List.foldl_cons, h, hc]
        exact List.mem_cons_self y ys
    · right
      rw [List.foldl_cons]
      exact List.mem_cons_of_mem y h

/-- C9: `MinNumberObs` returns the minimum of
`num_pos_training_examples_without_weight` over every leaf of every
tree (a value attained by some leaf and below every leaf), fails when
the model has no leaves, and returns 2 on the toy model. -/
theorem claim_C9_min_number_obs :
    ∀ (m : ForestModel) (v : Nat),
    (m.MinNumberObs = Except.ok v →
      v ∈ m.leafObsAll ∧
        m.leafObsAll.all (fun u => decide (v ≤ u)) = true)
    ∧ (m.leafObsAll = [] → isError m.MinNumberObs = true)
    ∧ (toyModel Task.CLASSIFICATION).MinNumberObs = Except.ok 2 := by
  intro m v
  refine ⟨fun h => ?_, fun h => ?_, by decide⟩
  · unfold ForestModel.MinNumberObs at h
    cases hl : m.leafObsAll with
    | nil => rw [hl] at h; cases h
    | cons x xs =>
      rw [hl] at h
      have hv : xs.foldl min x = v := by
        cases h
        rfl
      constructor
      · rw [← hv]
        rcases foldl_min_mem xs x with h1 | h1
        · rw [h1]; exact List.mem_cons_self x xs
        · exact List.mem_cons_of_mem x h1
      · simp only [List.all_eq_true, decide_eq_true_eq]
        intro u hu
        rw [← hv]
        rcases List.mem_cons.mp hu with h1 | h1
        · subst h1; exact foldl_min_le_init xs u
        · exact foldl_min_le_mem xs x u h1
  · unfold ForestModel.MinNumberObs
    rw [h]
    rfl

theorem claim_C9_min_number_obs_witness :
    (2 ∈ (toyModel Task.CLASSIFICATION).leafObsAll ∧
      (toyModel Task.CLASSIFICATION).leafObsAll.all
        (fun u => decide (2 ≤ u)) = true)
    ∧ isError emptyModel.MinNumberObs = true :=
  ⟨(claim_C9_min_number_obs (toyModel Task.CLASSIFICATION) 2).1 (by decide),
   (claim_C9_min_number_obs emptyModel 0).2.1 (by decide)⟩

theorem claim_C10_error_boundaries_witness :
    (toyModel Task.CLASSIFICATION).GetVariableImportance "PERMUTATION" =
      Except.error "unsupported importance kind"
    ∧ isError (predict emptyModel (fun _ => none)) = true :=
  ⟨(claim_C10_error_boundaries (toyModel Task.CLASSIFICATION)
      "PERMUTATION" (fun _ => none)).1
      (by decide) (by decide) (by decide) (by decide),
   (claim_C10_error_boundaries emptyModel "NUM_NODES"
      (fun _ => none)).2 rfl⟩

end YDF
